import Mathlib

/-!
# Verification of the daily streak updater

Shallow embedding of `.github/scripts/update_streak.py`, a linear pipeline
that loads a JSON record of active days, merges in today's date, recomputes
streak statistics, renders a markdown report, and persists the results.

Modelling conventions:
* Calendar dates are represented by their proleptic-Gregorian ordinal
  (`Nat`, day 1 = 0001-01-01), exactly the value of Python's
  `date.toordinal()`.  Python's `date` comparison, subtraction and
  `timedelta(days=1)` arithmetic are order-isomorphic to ordinal
  arithmetic, which `rataDie` implements.
* The two files the script touches are modelled explicitly; file contents
  are strings (`Option String`, `none` = absent) for the report, and a
  typed/structured value for the JSON record.
* Python exceptions are modelled with `Except String`; the message carries
  the exception class name.
* `datetime.utcnow()` is read by the script at several distinct call
  sites; `runMainClock` models each site as a separate clock read, and
  `runMain` is the special case of a constant clock.
-/

set_option maxRecDepth 8000

namespace StreakUpdate

/-! ## Date arithmetic (`to_date`, `today_str`, `timedelta` handling)

`isLeapYear`, `monthLength`, `rataDie` implement the proleptic Gregorian
calendar exactly as Python's `datetime.date` does. -/

def isLeapYear (y : Nat) : Bool :=
  (y % 4 == 0 && y % 100 != 0) || y % 400 == 0

def monthLength (y : Nat) (m : Nat) : Nat :=
  if m = 2 then (if isLeapYear y then 29 else 28)
  else if m = 4 ∨ m = 6 ∨ m = 9 ∨ m = 11 then 30
  else 31

/-- Days in year `y` strictly before month `m`. -/
def daysBeforeMonth (y : Nat) (m : Nat) : Nat :=
  ((List.range (m - 1)).map (fun i => monthLength y (i + 1))).sum

/-- `date(y, m, d).toordinal()`: day number with 0001-01-01 ↦ 1. -/
def rataDie (y : Nat) (m : Nat) (d : Nat) : Nat :=
  365 * (y - 1) + (y - 1) / 4 - (y - 1) / 100 + (y - 1) / 400 + daysBeforeMonth y m + d

/-- A calendar date as the clock supplies it (`datetime.utcnow().date()`). -/
structure Ymd where
  y : Nat
  m : Nat
  d : Nat
deriving DecidableEq, Repr

def Ymd.ord (t : Ymd) : Nat := rataDie t.y t.m t.d

def pad2 (n : Nat) : String :=
  if n < 10 then "0" ++ toString n else toString n

def pad4 (n : Nat) : String :=
  if n < 10 then "000" ++ toString n
  else if n < 100 then "00" ++ toString n
  else if n < 1000 then "0" ++ toString n
  else toString n

/-- `today_str()` / `strftime("%Y-%m-%d")` applied to a date. -/
def fmt (t : Ymd) : String := pad4 t.y ++ "-" ++ pad2 t.m ++ "-" ++ pad2 t.d

/-- `str.split("-")` on the character list: splitting on `'-'`,
keeping empty parts (so `"a--b" ↦ ["a", "", "b"]`). -/
def splitDash : List Char → List (List Char)
  | [] => [[]]
  | c :: rest =>
    let ps := splitDash rest
    if c = '-' then [] :: ps
    else
      match ps with
      | [] => [[c]]   -- unreachable: `splitDash` never returns `[]`
      | p :: pt => (c :: p) :: pt

/-- Value of a decimal digit character, `none` for a non-digit. -/
def decDigit (c : Char) : Option Nat :=
  if 48 ≤ c.toNat ∧ c.toNat ≤ 57 then some (c.toNat - 48) else none

def digitsVal : List Char → Nat → Option Nat
  | [], acc => some acc
  | c :: r, acc =>
    match decDigit c with
    | none => none
    | some d => digitsVal r (acc * 10 + d)

/-- Numeric value of a nonempty all-digit character list, else `none`. -/
def parseDigits (l : List Char) : Option Nat :=
  if l.isEmpty then none else digitsVal l 0

/-- `to_date(s) = datetime.strptime(s, "%Y-%m-%d").date()`, as an ordinal.
`%Y` matches exactly four digits, `%m` and `%d` one or two digits, and the
`date` constructor validates the calendar ranges (`MINYEAR = 1`, day within
month length).  `none` models the `ValueError` raised on mismatch. -/
def to_date (s : String) : Option Nat :=
  match splitDash s.data with
  | [ys, ms, ds] =>
    match parseDigits ys, parseDigits ms, parseDigits ds with
    | some y, some m, some d =>
      if ys.length = 4 ∧ ms.length ≤ 2 ∧ ds.length ≤ 2
          ∧ 1 ≤ y ∧ 1 ≤ m ∧ m ≤ 12 ∧ 1 ≤ d ∧ d ≤ monthLength y m
      then some (rataDie y m d) else none
    | _, _, _ => none
  | _ => none

deriving instance DecidableEq for Except

/-- Left-to-right parsing of a list of date strings, stopping at the first
failure — the evaluation order of `sorted(to_date(d) for d in dates_str)`
and of `set(to_date(d) for d in dates_str)`. -/
def parse_all : List String → Except String (List Nat)
  | [] => Except.ok []
  | s :: rest =>
    match to_date s with
    | none => Except.error ("ValueError: time data does not match format: " ++ s)
    | some d =>
      match parse_all rest with
      | Except.error e => Except.error e
      | Except.ok ds => Except.ok (d :: ds)

/-! ## `calculate_streak` -/

/-- The `for i in range(1, len(dates))` loop of `calculate_streak`,
carrying the previous date, the running chain and the longest chain seen.
Returns `(current_chain, longest)` after consuming the list. -/
def chainLoop (prev : Nat) (chain : Nat) (longest : Nat) : List Nat → Nat × Nat
  | [] => (chain, longest)
  | d :: rest =>
    let chain' := if d = prev + 1 then chain + 1 else 1
    let longest' := if chain' > longest then chain' else longest
    chainLoop d chain' longest' rest

/-- `calculate_streak(dates_str)` with the single `datetime.utcnow().date()`
read passed in as `today` (an ordinal).  The `elif` branch computes
`today - timedelta(days=1)`, which raises `OverflowError` when `today` is
0001-01-01 (ordinal 1); real clock values are far larger. -/
def calculate_streak (dates_str : List String) (today : Nat) : Except String (Nat × Nat) :=
  if dates_str.isEmpty then Except.ok (0, 0)
  else
    match parse_all dates_str with
    | Except.error e => Except.error e
    | Except.ok parsed =>
      match parsed.insertionSort (· ≤ ·) with
      | [] => Except.ok (0, 0)   -- unreachable: `parsed` is nonempty
      | d0 :: rest =>
        let (chain, longest) := chainLoop d0 1 1 rest
        let last := rest.getLastD d0   -- `dates[-1]` of the sorted list
        if last = today then Except.ok (chain, longest)
        else if today ≤ 1 then Except.error "OverflowError: date value out of range"
        else if last = today - 1 then Except.ok (chain, longest)
        else Except.ok (0, longest)

/-! ## Specification-side streak functions

These are the independent characterisations the claims describe: the
length of the maximal run of consecutive days ending at a given day, the
maximum such run over the whole set, and the most recent day. They are
membership-based, hence invariant under reordering of the date list. -/

/-- Length of the maximal run of consecutive calendar days contained in
`l` that ends exactly at day `d` (0 if `d ∉ l`). -/
def runLenEnd (l : List Nat) : Nat → Nat
  | 0 => if 0 ∈ l then 1 else 0
  | d + 1 => if d + 1 ∈ l then runLenEnd l d + 1 else 0

/-- Maximum length of a run of strictly consecutive calendar days inside
the date set `l`. -/
def maxRun (l : List Nat) : Nat :=
  l.foldr (fun d acc => max (runLenEnd l d) acc) 0

/-- The most recent date of `l` (the final element of the sorted sequence). -/
def lastDate (l : List Nat) : Nat :=
  l.foldr max 0

/-- The specified current streak: the chain ending at the most recent date
when that date is `today` or `today` minus one day, and 0 otherwise. -/
def currentSpec (l : List Nat) (today : Nat) : Nat :=
  if lastDate l = today ∨ lastDate l + 1 = today then runLenEnd l (lastDate l) else 0

/-! ## The durable record and `normalize_dates`, `add_today_if_missing`

`StreakData` is the well-formed shape of `streak_data.json`
(`{"dates": [...], "longest_streak": n, "created_at": s}`).  The untyped
values `json.load` can actually return are modelled separately by `PyVal`
below, for the load/corruption claims. -/

structure StreakData where
  dates : List String
  longest_streak : Int
  created_at : String
deriving DecidableEq, Repr

/-- Python's string comparison: lexicographic on code points. -/
def charsLe : List Char → List Char → Bool
  | [], _ => true
  | _ :: _, [] => false
  | a :: as, b :: bs =>
    if a.toNat < b.toNat then true
    else if b.toNat < a.toNat then false
    else charsLe as bs

/-- `a <= b` on Python strings. -/
def pyStrLe (a : String) : String → Prop := fun b => charsLe a.data b.data = true

instance : DecidableRel pyStrLe := fun a b => by
  unfold pyStrLe
  exact inferInstance

theorem charsLe_total : ∀ as bs : List Char, charsLe as bs = true ∨ charsLe bs as = true := by
  intro as
  induction as with
  | nil => intro bs; exact Or.inl rfl
  | cons a as ih =>
    intro bs
    cases bs with
    | nil => exact Or.inr rfl
    | cons b bs =>
      by_cases h1 : a.toNat < b.toNat
      · exact Or.inl (by simp [charsLe, h1])
      · by_cases h2 : b.toNat < a.toNat
        · exact Or.inr (by simp [charsLe, h2])
        · rcases ih bs with h | h
          · exact Or.inl (by simp [charsLe, h1, h2, h])
          · exact Or.inr (by simp [charsLe, h1, h2, h])

theorem charsLe_trans : ∀ as bs cs : List Char,
    charsLe as bs = true → charsLe bs cs = true → charsLe as cs = true := by
  intro as
  induction as with
  | nil => intro bs cs _ _; rfl
  | cons a as ih =>
    intro bs cs hab hbc
    cases bs with
    | nil => simp [charsLe] at hab
    | cons b bs =>
      cases cs with
      | nil => simp [charsLe] at hbc
      | cons c cs =>
        simp only [charsLe] at hab hbc ⊢
        by_cases h1 : a.toNat < b.toNat <;> by_cases h2 : b.toNat < c.toNat
        · rw [if_pos (by omega : a.toNat < c.toNat)]
        · by_cases h3 : c.toNat < b.toNat
          · simp [h2, h3] at hbc
          · rw [if_pos (by omega : a.toNat < c.toNat)]
        · by_cases h4 : b.toNat < a.toNat
          · simp [h1, h4] at hab
          · rw [if_pos (by omega : a.toNat < c.toNat)]
        · by_cases h4 : b.toNat < a.toNat
          · simp [h1, h4] at hab
          · by_cases h3 : c.toNat < b.toNat
            · simp [h2, h3] at hbc
            · rw [if_neg h1, if_neg h4] at hab
              rw [if_neg h2, if_neg h3] at hbc
              rw [if_neg (by omega : ¬ a.toNat < c.toNat),
                if_neg (by omega : ¬ c.toNat < a.toNat)]
              exact ih bs cs hab hbc

instance : IsTotal String pyStrLe := ⟨fun a b => charsLe_total a.data b.data⟩

instance : IsTrans String pyStrLe := ⟨fun a b c => charsLe_trans a.data b.data c.data⟩

/-- `normalize_dates(dates) = sorted(list(set(dates)))` on a list of
strings: deduplicate, then sort in Python's string order. -/
def normalize_dates (dates : List String) : List String :=
  (dates.dedup).insertionSort pyStrLe

/-- `add_today_if_missing(data)`.  The two clock reads it performs are
passed explicitly: `tAdd` is the `today_str()` call at the top, `tCalc`
the `datetime.utcnow().date()` read inside `calculate_streak`.  `main`
passes the same date twice (a run that does not straddle midnight).
Returns the mutated record, `current`, and `data["longest_streak"]`. -/
def add_today_if_missing (data : StreakData) (tAdd : Ymd) (tCalc : Ymd) :
    Except String (StreakData × Nat × Int) :=
  let t := fmt tAdd
  let dates1 := if t ∈ data.dates then data.dates else data.dates ++ [t]
  let dates2 := normalize_dates dates1
  match calculate_streak dates2 tCalc.ord with
  | Except.error e => Except.error e
  | Except.ok (current, longest) =>
    let ls := max data.longest_streak (longest : Int)
    Except.ok ({ data with dates := dates2, longest_streak := ls }, current, ls)

/-! ## `make_bar`

Python computes `ratio = min(1.0, current / float(longest or 1))` and
`filled = int(width * ratio) if current > 0 else 0` in floating point; we
model the float expression by its exact real value.  In the branch taken
(`longest > 0`, so `longest or 1 = longest`), and with `current > 0`, that
value is `width` when `current ≥ longest` (the `min` clamps the ratio
at 1) and `⌊width * current / longest⌋` otherwise — which for positive
arguments is truncating division, i.e. `Nat` division.  `barSpecFilled`
below restates this as the rational-floor formula of the specification,
and `make_bar_spec`-style lemmas connect the two. -/

def make_bar (current : Int) (longest : Int) (width : Nat) : String :=
  if longest ≤ 0 then "No streak yet. Start today. 🔥"
  else
    let filled : Nat :=
      if current > 0 then
        (if longest ≤ current then width else (width * current.toNat) / longest.toNat)
      else 0
    let bar := String.mk (List.replicate filled '🔥')
        ++ String.mk (List.replicate (width - filled) '·')
    bar ++ "  (" ++ toString current ++ "/" ++ toString longest ++ " days)"

/-- The specification's fill count: `floor(width * min(1.0, current/longest))`,
in exact rational arithmetic. -/
def barSpecFilled (current : Int) (longest : Int) (width : Nat) : Int :=
  ⌊(width : ℚ) * min 1 ((current : ℚ) / (longest : ℚ))⌋

/-! ## `make_calendar_block` -/

/-- One cell of the heatmap grid. -/
def dayCell (dates : List Nat) (start : Nat) (day : Nat) : String :=
  if day < start then "  " else if day ∈ dates then "██" else "░░"

/-- Group cells into rows of seven, padding the final partial row with
blank cells, exactly as the `while` loop emits them. -/
def chunkGo : Nat → List String → List (List String)
  | _, [] => []
  | 0, _ => []   -- fuel exhausted; unreachable with fuel ≥ length
  | fuel + 1, l =>
    if l.length ≤ 7 then [l ++ List.replicate (7 - l.length) "  "]
    else l.take 7 :: chunkGo fuel (l.drop 7)

def chunkWeeks (l : List String) : List (List String) := chunkGo l.length l

/-- `make_calendar_block(dates_str, months)` with the internal
`datetime.utcnow().date()` read passed as `today` (ordinal).  The two
`OverflowError` branches model `today - timedelta(days=months*30)` and the
week-start alignment stepping below `date.min`; unreachable for real clock
values. -/
def make_calendar_block (dates_str : List String) (today : Nat) (months : Nat) :
    Except String String :=
  if dates_str.isEmpty then
    Except.ok "_No activity yet — first run just started the engine._"
  else
    match parse_all dates_str with
    | Except.error e => Except.error e
    | Except.ok dates =>
      if today ≤ months * 30 then Except.error "OverflowError: date value out of range"
      else
        let start := today - months * 30
        let shift := ((start - 1) % 7 + 1) % 7
        if start ≤ shift then Except.error "OverflowError: date value out of range"
        else
          let c0 := start - shift
          let cells := (List.range (today + 1 - c0)).map (fun i => dayCell dates start (c0 + i))
          let lines := "Recent Activity Heatmap" :: "`Su Mo Tu We Th Fr Sa`"
              :: (chunkWeeks cells).map (fun w => String.intercalate " " w)
          Except.ok (String.intercalate "\n" (lines.map (fun l => "`" ++ l ++ "`")))

/-! ## `render_streak_md` -/

/-- `render_streak_md(data, current, longest)`.  Its two clock reads are
explicit: `tUpd` is the `today_str()` used for "Last Updated" (and as the
`created_at` default, which a `StreakData` record never needs), `tCal` the
`utcnow` read inside `make_calendar_block`; `main` passes the same date
twice. -/
def render_streak_md (data : StreakData) (current : Nat) (longest : Int)
    (tUpd : Ymd) (tCal : Ymd) : Except String String :=
  let total_days := data.dates.length
  let created_at := data.created_at
  let last_updated := fmt tUpd
  let bar := make_bar (current : Int) longest 40
  match make_calendar_block data.dates tCal.ord 4 with
  | Except.error e => Except.error e
  | Except.ok calendar =>
    Except.ok ("# 🔥 Automated Repo Streak\n\nThis file is auto-updated daily by **GitHub Actions** to keep track of activity in this repository.\n\n---\n\n## 📊 Streak Status\n\n- **Current Streak:** `"
      ++ toString current
      ++ "` day(s)\n- **Longest Streak:** `"
      ++ toString longest
      ++ "` day(s)\n- **Total Active Days:** `"
      ++ toString total_days
      ++ "`\n- **Tracking Since:** `"
      ++ created_at
      ++ "`\n- **Last Updated (UTC):** `"
      ++ last_updated
      ++ "`\n\n---\n\n## 📈 Streak Progress\n\n`"
      ++ bar
      ++ "`\n\n---\n\n## 🗓️ Activity Overview\n\n"
      ++ calendar
      ++ "\n\n---\n\n_This streak is maintained by an automated workflow in this repo. Edit `.github/workflows/daily-streak.yml` or `.github/scripts/update_streak.py` to customize._\n")

/-! ## File access: `read_file`, `write_if_changed`, `save_data`, `load_data` -/

/-- Characters stripped by Python's `str.strip()` (the ASCII ones; the
report text is ASCII-plus-emoji with no exotic Unicode spaces). -/
def pyIsSpace (c : Char) : Bool :=
  c = ' ' || c = '\t' || c = '\n' || c = '\r' || c = '\x0b' || c = '\x0c'

/-- Python `str.strip()`. -/
def pyStrip (s : String) : String :=
  String.mk (((s.data.dropWhile pyIsSpace).reverse.dropWhile pyIsSpace).reverse)

/-- `read_file(path)`: empty string when the file is absent. -/
def read_file (f : Option String) : String := f.getD ""

/-- `write_if_changed(path, new_content)`: returns the new file state and
the reported flag.  The file is rewritten only when the stripped contents
differ; otherwise it is left untouched (even if absent). -/
def write_if_changed (f : Option String) (new_content : String) : Option String × Bool :=
  if pyStrip (read_file f) ≠ pyStrip new_content then (some new_content, true) else (f, false)

/-- The two files `main` touches. `data = none` models an absent (or, in
the typed layer, unreadable) `streak_data.json`; `report` is `STREAK.md`.
`save_data` always succeeds and stores the record (its JSON serialization
with `indent=2, sort_keys=True` is a deterministic injective function of
the record, so byte-level identity of the file coincides with equality of
the stored `StreakData`). -/
structure FState where
  data : Option StreakData
  report : Option String
deriving DecidableEq, Repr

/-- The typed face of `load_data()`: an absent (or reset) record file
yields the fresh empty record with `created_at = today_str()`.  `tLoad` is
the `today_str()` read inside `load_data`. -/
def load_record (f : Option StreakData) (tLoad : Ymd) : StreakData :=
  match f with
  | none => { dates := [], longest_streak := 0, created_at := fmt tLoad }
  | some d => d

/-- Everything `main()` produces: the final file system, the `changed`
flag printed in the summary, and the three headline numbers
(current streak, longest streak, total days). -/
def RunOut := FState × Bool × Nat × Int × Nat
deriving instance DecidableEq for RunOut

/-- One `datetime.utcnow()` value per call site that reads the clock
during a run of `main()`. -/
structure Clock where
  tLoad : Ymd   -- `today_str()` inside `load_data` (fresh-record path)
  tAdd : Ymd    -- `today_str()` at the top of `add_today_if_missing`
  tCalc : Ymd   -- `datetime.utcnow().date()` inside `calculate_streak`
  tUpd : Ymd    -- `today_str()` for `last_updated` in `render_streak_md`
  tCal : Ymd    -- `datetime.utcnow().date()` inside `make_calendar_block`
deriving DecidableEq, Repr

/-- `main()` with every clock read explicit.  Mirrors the run sequence:
load, merge today, save (unconditionally), render, write-if-changed. -/
def runMainClock (fs : FState) (clk : Clock) : Except String RunOut :=
  let data0 := load_record fs.data clk.tLoad
  match add_today_if_missing data0 clk.tAdd clk.tCalc with
  | Except.error e => Except.error e
  | Except.ok (data1, current, longest) =>
    match render_streak_md data1 current longest clk.tUpd clk.tCal with
    | Except.error e => Except.error e
    | Except.ok new_md =>
      let (report1, changed) := write_if_changed fs.report new_md
      Except.ok (⟨some data1, report1⟩, changed, current, longest, data1.dates.length)

/-- `main()` on a run during which every clock read returns the same date
`today` (the run does not straddle midnight). -/
def runMain (fs : FState) (today : Ymd) : Except String RunOut :=
  let data0 := load_record fs.data today
  match add_today_if_missing data0 today today with
  | Except.error e => Except.error e
  | Except.ok (data1, current, longest) =>
    match render_streak_md data1 current longest today today with
    | Except.error e => Except.error e
    | Except.ok new_md =>
      let (report1, changed) := write_if_changed fs.report new_md
      Except.ok (⟨some data1, report1⟩, changed, current, longest, data1.dates.length)

/-- Extract the payload of a successful run (with a default). -/
def okOr (e : Except String RunOut) (d : RunOut) : RunOut :=
  match e with
  | Except.ok v => v
  | Except.error _ => d

/-- Did the computation succeed? -/
def exOk {α : Type} (e : Except String α) : Bool :=
  match e with
  | Except.ok _ => true
  | Except.error _ => false

def dfltOut : RunOut := (⟨none, none⟩, false, 0, 0, 0)

/-! ## The untyped layer: what `json.load` actually returns

`load_data()` only guards against `open`/`json.load` raising; a file whose
content is valid JSON but not a record object is returned as-is, and the
pipeline then operates on it dynamically.  `PyVal` models JSON values
(JSON numbers restricted to integers — fractional literals play no role in
any claim), and the `py*` functions model the dynamic-typed operations
`add_today_if_missing` performs on them, returning the Python exception
when the operation is unsupported.  Aliasing of mutable objects is not
modelled: the one mutation (`dates.append`) is immediately superseded by
`data["dates"] = normalize_dates(dates)`, so only the value matters.
Python's cross-type `1 == True` equality and bool/int ordering are
approximated structurally; no theorem relies on those corners. -/

inductive PyVal where
  | pnone : PyVal
  | pbool : Bool → PyVal
  | pint : Int → PyVal
  | pstr : String → PyVal
  | plist : List PyVal → PyVal
  | pdict : List (String × PyVal) → PyVal

/-- The three states `streak_data.json` can be in, as seen through
`open` + `json.load`: absent, present but not valid JSON (any exception
from `json.load`), or a parsed JSON value (dict keys unique, as
`json.load` collapses duplicates). -/
inductive FileContent where
  | absent : FileContent
  | malformed : FileContent
  | json : PyVal → FileContent

/-- The fresh empty record `load_data` builds, with `created_at` from its
own `today_str()` read. -/
def freshRecord (today : String) : PyVal :=
  PyVal.pdict [("dates", PyVal.plist []), ("longest_streak", PyVal.pint 0),
    ("created_at", PyVal.pstr today)]

/-- `load_data()`: fresh record when the file is absent; fresh record when
`json.load` raises (the `except` branch); otherwise whatever value the
JSON parses to, with no shape validation. -/
def load_data (f : FileContent) (today : String) : PyVal :=
  match f with
  | FileContent.absent => freshRecord today
  | FileContent.malformed => freshRecord today
  | FileContent.json v => v

/-- Python `data.get(key, default)`: only dicts have `.get`. -/
def pyGet (v : PyVal) (key : String) (dflt : PyVal) : Except String PyVal :=
  match v with
  | PyVal.pdict kvs => Except.ok (((kvs.filter (fun p => p.1 = key)).head?).elim dflt Prod.snd)
  | _ => Except.error "AttributeError: object has no attribute get"

/-- Is `n` an infix of `h`? (Python substring containment.) -/
def listHasInfix (n : List Char) : List Char → Bool
  | [] => n.isEmpty
  | c :: rest => n.isPrefixOf (c :: rest) || listHasInfix n rest

/-- Python `t in container` for a string `t`: element test for lists
(string equality; `==` against a non-string is `False`), substring test
for strings, key test for dicts, `TypeError` otherwise. -/
def pyContains (container : PyVal) (t : String) : Except String Bool :=
  match container with
  | PyVal.plist xs =>
    Except.ok (xs.any (fun v => match v with
      | PyVal.pstr s => s = t
      | _ => false))
  | PyVal.pstr s => Except.ok (listHasInfix t.data s.data)
  | PyVal.pdict kvs => Except.ok (kvs.any (fun p => p.1 = t))
  | _ => Except.error "TypeError: argument is not iterable"

/-- Python `container.append(t)`: only lists have `.append`. -/
def pyAppend (container : PyVal) (t : String) : Except String PyVal :=
  match container with
  | PyVal.plist xs => Except.ok (PyVal.plist (xs ++ [PyVal.pstr t]))
  | _ => Except.error "AttributeError: object has no attribute append"

/-- Scalar (hashable) Python equality, used by `set()` deduplication. -/
def scalarEq (a b : PyVal) : Bool :=
  match a, b with
  | PyVal.pnone, PyVal.pnone => true
  | PyVal.pbool x, PyVal.pbool y => x = y
  | PyVal.pint x, PyVal.pint y => x = y
  | PyVal.pstr x, PyVal.pstr y => x = y
  | _, _ => false

def dedupScalar : List PyVal → List PyVal
  | [] => []
  | v :: rest =>
    let r := dedupScalar rest
    if r.any (fun w => scalarEq v w) then r else v :: r

/-- `normalize_dates(dates) = sorted(list(set(dates)))` on an arbitrary
Python value: iterable values are deduplicated and sorted (all-strings and
all-ints are the orders any theorem touches; other element mixes raise
`TypeError` as unhashable/unorderable), non-iterables raise `TypeError`. -/
def dynNormalize (v : PyVal) : Except String (List PyVal) :=
  match v with
  | PyVal.plist xs =>
    let ded := dedupScalar xs
    if ded.all (fun w => match w with | PyVal.pstr _ => true | _ => false) then
      Except.ok ((((ded.filterMap (fun w => match w with
        | PyVal.pstr s => some s
        | _ => none))).insertionSort pyStrLe).map PyVal.pstr)
    else if ded.all (fun w => match w with | PyVal.pint _ => true | _ => false) then
      Except.ok ((((ded.filterMap (fun w => match w with
        | PyVal.pint n => some n
        | _ => none))).insertionSort (· ≤ ·)).map PyVal.pint)
    else Except.error "TypeError: unsupported element types in sorted(set(...))"
  | PyVal.pstr s =>
    Except.ok (((dedupScalar (s.data.map (fun c => PyVal.pstr (String.mk [c])))).filterMap
      (fun w => match w with
        | PyVal.pstr x => some x
        | _ => none)).insertionSort pyStrLe |>.map PyVal.pstr)
  | PyVal.pdict kvs =>
    Except.ok (((dedupScalar (kvs.map (fun p => PyVal.pstr p.1))).filterMap
      (fun w => match w with
        | PyVal.pstr x => some x
        | _ => none)).insertionSort pyStrLe |>.map PyVal.pstr)
  | _ => Except.error "TypeError: object is not iterable"

/-- Left-to-right extraction of the strings `strptime` will consume;
`strptime` raises `TypeError` at the first non-string element. -/
def dynToStrs : List PyVal → Except String (List String)
  | [] => Except.ok []
  | v :: rest =>
    match v with
    | PyVal.pstr s =>
      match dynToStrs rest with
      | Except.error e => Except.error e
      | Except.ok ss => Except.ok (s :: ss)
    | _ => Except.error "TypeError: strptime() argument 1 must be str"

/-- `calculate_streak` applied to the normalized dynamic list: the
all-strings case is exactly the typed `calculate_streak`. -/
def dynCalc (xs : List PyVal) (today : Nat) : Except String (Nat × Nat) :=
  match dynToStrs xs with
  | Except.error e => Except.error e
  | Except.ok strs => calculate_streak strs today

/-- Python `max(v, longest)` where `longest` is the computed `int`:
int/bool comparisons succeed (`max` returns the first argument on a tie),
anything else raises `TypeError`. -/
def pyMax (v : PyVal) (longest : Nat) : Except String PyVal :=
  match v with
  | PyVal.pint n => Except.ok (if (longest : Int) > n then PyVal.pint longest else PyVal.pint n)
  | PyVal.pbool b =>
    Except.ok (if (longest : Int) > (if b then 1 else 0) then PyVal.pint longest else PyVal.pbool b)
  | _ => Except.error "TypeError: comparison not supported"

/-- `data[key] = value` on a dict with unique keys. -/
def dictSet (kvs : List (String × PyVal)) (key : String) (v : PyVal) :
    List (String × PyVal) :=
  if kvs.any (fun p => p.1 = key) then
    kvs.map (fun p => if p.1 = key then (key, v) else p)
  else kvs ++ [(key, v)]

/-- `add_today_if_missing(data)` on the untyped value `load_data`
returned.  `tAdd` is the `today_str()` string read at the top, `tCalc`
the ordinal read inside `calculate_streak`. -/
def dyn_add_today_if_missing (data : PyVal) (tAdd : String) (tCalc : Nat) :
    Except String (PyVal × Nat × PyVal) :=
  match pyGet data "dates" (PyVal.plist []) with
  | Except.error e => Except.error e
  | Except.ok dates0 =>
    match pyContains dates0 tAdd with
    | Except.error e => Except.error e
    | Except.ok isIn =>
      match (if isIn then Except.ok dates0 else pyAppend dates0 tAdd) with
      | Except.error e => Except.error e
      | Except.ok dates1 =>
        match dynNormalize dates1 with
        | Except.error e => Except.error e
        | Except.ok dates2 =>
          match dynCalc dates2 tCalc with
          | Except.error e => Except.error e
          | Except.ok (current, longest) =>
            match pyGet data "longest_streak" (PyVal.pint 0) with
            | Except.error e => Except.error e
            | Except.ok ls0 =>
              match pyMax ls0 longest with
              | Except.error e => Except.error e
              | Except.ok ls =>
                match data with
                | PyVal.pdict kvs =>
                  let kvs1 := dictSet kvs "dates" (PyVal.plist dates2)
                  let kvs2 := dictSet kvs1 "longest_streak" ls
                  Except.ok (PyVal.pdict kvs2, current, ls)
                | _ => Except.error "TypeError: object does not support item assignment"

/-! ## Lemmas: the chain walk computes `runLenEnd` / `maxRun`

These connect the imperative loop of `calculate_streak` to the
order-free specification functions. -/

theorem if_gt_eq_max (a b : Nat) : (if a > b then a else b) = max b a := by
  by_cases h : a > b
  · rw [if_pos h, max_eq_right (le_of_lt h)]
  · rw [if_neg h, max_eq_left (Nat.le_of_not_lt h)]

theorem chainLoop_append (xs : List Nat) (a prev c lg : Nat) :
    chainLoop prev c lg (xs ++ [a]) =
      (if a = xs.getLastD prev + 1 then (chainLoop prev c lg xs).1 + 1 else 1,
       if (if a = xs.getLastD prev + 1 then (chainLoop prev c lg xs).1 + 1 else 1) >
           (chainLoop prev c lg xs).2
       then (if a = xs.getLastD prev + 1 then (chainLoop prev c lg xs).1 + 1 else 1)
       else (chainLoop prev c lg xs).2) := by
  induction xs generalizing prev c lg with
  | nil => simp [chainLoop, List.getLastD]
  | cons x xs ih =>
    simp only [List.cons_append, chainLoop, List.getLastD_cons]
    exact ih x _ _

theorem runLenEnd_congr {l₁ l₂ : List Nat} (d : Nat)
    (h : ∀ b, b ≤ d → (b ∈ l₁ ↔ b ∈ l₂)) : runLenEnd l₁ d = runLenEnd l₂ d := by
  induction d with
  | zero =>
    simp only [runLenEnd]
    rw [if_congr (h 0 (Nat.le_refl 0)) rfl rfl]
  | succ n ih =>
    simp only [runLenEnd]
    rw [if_congr (h (n + 1) (Nat.le_refl _)) rfl rfl,
      ih (fun b hb => h b (Nat.le_trans hb (Nat.le_succ n)))]

theorem runLenEnd_eq_zero {l : List Nat} {d : Nat} (h : d ∉ l) : runLenEnd l d = 0 := by
  cases d <;> simp [runLenEnd, h]

theorem runLenEnd_pos {l : List Nat} {d : Nat} (h : d ∈ l) : 1 ≤ runLenEnd l d := by
  cases d <;> simp [runLenEnd, h]

theorem runLenEnd_eq_one {l : List Nat} {d : Nat} (hd : d ∈ l)
    (h : ∀ b, b + 1 = d → b ∉ l) : runLenEnd l d = 1 := by
  cases d with
  | zero => simp [runLenEnd, hd]
  | succ n => simp [runLenEnd, hd, runLenEnd_eq_zero (h n rfl)]

theorem runLenEnd_append_gt {l : List Nat} {a d : Nat} (h : d < a) :
    runLenEnd (l ++ [a]) d = runLenEnd l d := by
  refine runLenEnd_congr d (fun b hb => ?_)
  have hba : b ≠ a := by omega
  simp [List.mem_append, hba]

theorem le_foldr_max {l : List Nat} {b : Nat} (h : b ∈ l) : b ≤ l.foldr max 0 := by
  induction l with
  | nil => cases h
  | cons x xs ih =>
    rcases List.mem_cons.mp h with rfl | hx
    · simp only [List.foldr]; omega
    · have := ih hx; simp only [List.foldr]; omega

theorem foldr_max_congr {f g : Nat → Nat} {l : List Nat} (h : ∀ d ∈ l, f d = g d) (i : Nat) :
    l.foldr (fun d acc => max (f d) acc) i = l.foldr (fun d acc => max (g d) acc) i := by
  induction l with
  | nil => rfl
  | cons x xs ih =>
    simp only [List.foldr]
    rw [h x (List.mem_cons_self x xs), ih (fun d hd => h d (List.mem_cons_of_mem x hd))]

theorem foldr_max_init (f : Nat → Nat) (l : List Nat) (i : Nat) :
    l.foldr (fun d acc => max (f d) acc) i = max (l.foldr (fun d acc => max (f d) acc) 0) i := by
  induction l with
  | nil => simp
  | cons x xs ih => simp only [List.foldr]; omega

theorem foldr_max_perm {f : Nat → Nat} {l₁ l₂ : List Nat} (p : l₁.Perm l₂) (i : Nat) :
    l₁.foldr (fun d acc => max (f d) acc) i = l₂.foldr (fun d acc => max (f d) acc) i := by
  haveI : LeftCommutative (fun (d : Nat) (acc : Nat) => max (f d) acc) :=
    ⟨fun a b c => by omega⟩
  exact p.foldr_eq i

theorem getLastD_cons_mem (x : Nat) (l : List Nat) : (x :: l).getLastD 0 ∈ x :: l := by
  induction l generalizing x with
  | nil => simp [List.getLastD]
  | cons y ys ih =>
    rw [List.getLastD_cons, List.getLastD_cons]
    have := ih y
    rw [List.getLastD_cons] at this
    exact List.mem_cons_of_mem x this

theorem getLastD_cons_eq (y : Nat) (ys : List Nat) (d e : Nat) :
    (y :: ys).getLastD d = (y :: ys).getLastD e := by
  cases ys with
  | nil => rfl
  | cons z zs => simp only [List.getLastD_cons]

theorem le_getLastD_of_sorted {l : List Nat} (hl : l.Sorted (· ≤ ·)) :
    ∀ b ∈ l, b ≤ l.getLastD 0 := by
  induction l with
  | nil => intro b hb; cases hb
  | cons x xs ih =>
    intro b hb
    rcases List.mem_cons.mp hb with rfl | hbx
    · cases xs with
      | nil => simp [List.getLastD]
      | cons y ys =>
        rw [List.getLastD_cons, getLastD_cons_eq y ys b 0]
        exact List.rel_of_sorted_cons hl _ (getLastD_cons_mem y ys)
    · cases xs with
      | nil => cases hbx
      | cons y ys =>
        rw [List.getLastD_cons, getLastD_cons_eq y ys x 0]
        exact ih (List.Sorted.of_cons hl) b hbx

theorem sorted_lt_of_sorted_le_nodup {l : List Nat} (hs : l.Sorted (· ≤ ·)) (hn : l.Nodup) :
    l.Sorted (· < ·) :=
  (hs.and hn).imp (fun h => lt_of_le_of_ne h.1 h.2)

/-- The loop of `calculate_streak`, run on a strictly sorted list
`d0 :: xs`, returns exactly the maximal-consecutive-run length ending at
the final element and the maximum run length of the set. -/
theorem chain_spec (d0 : Nat) (xs : List Nat)
    (hs : (d0 :: xs).Sorted (· < ·)) :
    chainLoop d0 1 1 xs =
      (runLenEnd (d0 :: xs) (xs.getLastD d0), maxRun (d0 :: xs)) := by
  induction xs using List.reverseRecOn with
  | nil =>
    have h1 : runLenEnd [d0] d0 = 1 :=
      runLenEnd_eq_one (List.mem_singleton_self d0) (fun b hb => by
        simp only [List.mem_singleton]; omega)
    simp [chainLoop, List.getLastD, maxRun, h1]
  | append_singleton ys a ih =>
    have hcons : d0 :: (ys ++ [a]) = (d0 :: ys) ++ [a] := by simp
    rw [hcons] at hs
    have hsplit := List.pairwise_append.mp hs
    have hs' : (d0 :: ys).Sorted (· < ·) := hsplit.1
    have hlt : ∀ x ∈ d0 :: ys, x < a := fun x hx =>
      hsplit.2.2 x hx a (List.mem_singleton_self a)
    have hmlast : (d0 :: ys).getLastD 0 = ys.getLastD d0 := List.getLastD_cons 0 d0 ys
    have hmmem : ys.getLastD d0 ∈ d0 :: ys := by
      rw [← hmlast]; exact getLastD_cons_mem d0 ys
    have hmlt : ys.getLastD d0 < a := hlt _ hmmem
    have hmmax : ∀ b ∈ d0 :: ys, b ≤ ys.getLastD d0 := by
      intro b hb
      have := le_getLastD_of_sorted (hs'.imp le_of_lt) b hb
      rwa [hmlast] at this
    have hrla : runLenEnd ((d0 :: ys) ++ [a]) a =
        if a = ys.getLastD d0 + 1 then runLenEnd (d0 :: ys) (ys.getLastD d0) + 1 else 1 := by
      by_cases ha : a = ys.getLastD d0 + 1
      · rw [if_pos ha]
        have hmem : a ∈ (d0 :: ys) ++ [a] := by simp
        cases a with
        | zero => omega
        | succ n =>
          have hn : n = ys.getLastD d0 := by omega
          simp only [runLenEnd, if_pos hmem]
          have h2 : runLenEnd ((d0 :: ys) ++ [n + 1]) n = runLenEnd (d0 :: ys) n :=
            runLenEnd_append_gt (Nat.lt_succ_self n)
          rw [h2, hn]
      · rw [if_neg ha]
        refine runLenEnd_eq_one (by simp) (fun b hb => ?_)
        intro hbmem
        rcases List.mem_append.mp hbmem with hbl | hba
        · have := hmmax b hbl; omega
        · rw [List.mem_singleton] at hba; omega
    have hmaxr : maxRun ((d0 :: ys) ++ [a]) =
        max (maxRun (d0 :: ys)) (runLenEnd ((d0 :: ys) ++ [a]) a) := by
      unfold maxRun
      rw [List.foldr_append]
      have h1 : List.foldr (fun d acc => max (runLenEnd ((d0 :: ys) ++ [a]) d) acc) 0 [a]
          = runLenEnd ((d0 :: ys) ++ [a]) a := by
        simp [List.foldr]
      rw [h1,
        foldr_max_congr (f := fun d => runLenEnd ((d0 :: ys) ++ [a]) d)
          (g := fun d => runLenEnd (d0 :: ys) d)
          (fun d hd => runLenEnd_append_gt (Nat.lt_of_le_of_lt (hmmax d hd) hmlt)) _,
        foldr_max_init]
    rw [hcons, chainLoop_append, ih hs']
    rw [List.getLastD_concat, hrla, hmaxr, hrla]
    by_cases ha : a = ys.getLastD d0 + 1
    · simp only [if_pos ha, Prod.mk.injEq, true_and, and_true]
      exact if_gt_eq_max _ _
    · simp only [if_neg ha, Prod.mk.injEq, true_and, and_true]
      exact if_gt_eq_max _ _

/-! ## `calculate_streak` meets its specification -/

theorem parse_all_length {l : List String} {ds : List Nat}
    (h : parse_all l = Except.ok ds) : ds.length = l.length := by
  induction l generalizing ds with
  | nil =>
    simp only [parse_all, Except.ok.injEq] at h
    subst h
    rfl
  | cons s rest ih =>
    simp only [parse_all] at h
    cases hd : to_date s <;> rw [hd] at h
    · simp at h
    · cases hrest : parse_all rest <;> rw [hrest] at h
      · simp at h
      · rw [← Except.ok.inj h]
        simp [ih hrest]

theorem getLastD_eq_foldr_max : ∀ {x : Nat} {l : List Nat},
    (x :: l).Sorted (· ≤ ·) → (x :: l).getLastD 0 = (x :: l).foldr max 0 := by
  intro x l
  induction l generalizing x with
  | nil => intro _; simp [List.getLastD]
  | cons y ys ih =>
    intro hs
    have h1 : (x :: y :: ys).getLastD 0 = (y :: ys).getLastD 0 := by
      rw [List.getLastD_cons]
      exact getLastD_cons_eq y ys x 0
    rw [h1, ih (List.Sorted.of_cons hs)]
    have hxy : x ≤ y := List.rel_of_sorted_cons hs y (List.mem_cons_self y ys)
    have hyF : y ≤ (y :: ys).foldr max 0 := le_foldr_max (List.mem_cons_self y ys)
    show (y :: ys).foldr max 0 = List.foldr max 0 (x :: y :: ys)
    simp only [List.foldr]
    exact (max_eq_right (hxy.trans (le_max_left y _))).symm

theorem foldr_plain_max_perm {l₁ l₂ : List Nat} (p : l₁.Perm l₂) :
    l₁.foldr max 0 = l₂.foldr max 0 := by
  haveI : LeftCommutative (max : Nat → Nat → Nat) := ⟨fun a b c => max_left_comm a b c⟩
  exact p.foldr_eq 0

/-- `calculate_streak` on a set of valid dates (given via its parsed
ordinals `ds`, duplicate-free) computes exactly the specified pair: the
current streak per the today/yesterday rule, and the maximum consecutive
run.  `1 < today` excludes the ordinal of 0001-01-01 (where the Python
code would raise `OverflowError` computing "yesterday"); any real clock
value is vastly larger. -/
theorem calculate_streak_spec (dates : List String) (ds : List Nat) (today : Nat)
    (hp : parse_all dates = Except.ok ds) (hnd : ds.Nodup) (ht : 1 < today) :
    calculate_streak dates today = Except.ok (currentSpec ds today, maxRun ds) := by
  cases dates with
  | nil =>
    have hds : ds = [] := by
      simp only [parse_all, Except.ok.injEq] at hp
      exact hp.symm
    subst hds
    have h0 : currentSpec [] today = 0 := by
      unfold currentSpec lastDate
      rw [if_neg (by simp only [List.foldr]; omega)]
    simp [calculate_streak, h0, maxRun]
  | cons s rest =>
    have hlen : ds.length = (s :: rest).length := parse_all_length hp
    have hdsne : ds ≠ [] := by
      intro h; rw [h] at hlen; simp at hlen
    have hperm := List.perm_insertionSort (· ≤ ·) ds
    have hsorted := List.sorted_insertionSort (· ≤ ·) ds
    have hndsl : (ds.insertionSort (· ≤ ·)).Nodup := hperm.nodup_iff.mpr hnd
    have hstrict := sorted_lt_of_sorted_le_nodup hsorted hndsl
    rcases hsl : ds.insertionSort (· ≤ ·) with _ | ⟨d0, rest2⟩
    · exfalso
      have hl := hperm.length_eq
      rw [hsl] at hl
      exact hdsne (List.length_eq_zero.mp hl.symm)
    · rw [hsl] at hstrict hsorted hperm hndsl
      have hchain := chain_spec d0 rest2 hstrict
      -- transfer the spec functions from the sorted list back to `ds`
      have hmem : ∀ b, b ∈ d0 :: rest2 ↔ b ∈ ds := fun b => hperm.mem_iff
      have hrun : ∀ d, runLenEnd (d0 :: rest2) d = runLenEnd ds d := fun d =>
        runLenEnd_congr d (fun b _ => hmem b)
      have hmaxR : maxRun (d0 :: rest2) = maxRun ds := by
        unfold maxRun
        rw [foldr_max_congr (f := fun d => runLenEnd (d0 :: rest2) d)
          (g := fun d => runLenEnd ds d) (fun d _ => hrun d)]
        exact foldr_max_perm hperm 0
      have hlast : rest2.getLastD d0 = lastDate ds := by
        have h1 : (d0 :: rest2).getLastD 0 = rest2.getLastD d0 :=
          List.getLastD_cons 0 d0 rest2
        rw [← h1, getLastD_eq_foldr_max hsorted]
        exact foldr_plain_max_perm hperm
      simp only [calculate_streak, List.isEmpty_cons, Bool.false_eq_true, if_false, hp, hsl,
        hchain]
      rw [hlast, hrun, hmaxR]
      by_cases h1 : lastDate ds = today
      · rw [if_pos h1]
        unfold currentSpec
        rw [if_pos (Or.inl h1)]
      · rw [if_neg h1, if_neg (by omega : ¬ today ≤ 1)]
        by_cases h2 : lastDate ds = today - 1
        · rw [if_pos h2]
          unfold currentSpec
          rw [if_pos (Or.inr (by omega))]
        · rw [if_neg h2]
          unfold currentSpec
          rw [if_neg (by omega)]

/-! ## Bounds on the calculator output -/

theorem lastDate_mem : ∀ {l : List Nat}, l ≠ [] → lastDate l ∈ l := by
  intro l
  induction l with
  | nil => intro h; exact absurd rfl h
  | cons x xs ih =>
    intro _
    unfold lastDate
    simp only [List.foldr]
    cases xs with
    | nil => simp
    | cons y ys =>
      rcases le_or_lt ((y :: ys).foldr max 0) x with h | h
      · rw [max_eq_left h]
        exact List.mem_cons_self x _
      · rw [max_eq_right (le_of_lt h)]
        have := ih (by simp)
        unfold lastDate at this
        exact List.mem_cons_of_mem x this

theorem le_foldr_max_f {f : Nat → Nat} :
    ∀ {l : List Nat} {b : Nat}, b ∈ l → f b ≤ l.foldr (fun d acc => max (f d) acc) 0 := by
  intro l
  induction l with
  | nil => intro b h; cases h
  | cons x xs ih =>
    intro b h
    rcases List.mem_cons.mp h with rfl | hx
    · exact le_max_left _ _
    · exact (ih hx).trans (le_max_right _ _)

theorem foldr_max_f_le {f : Nat → Nat} {B : Nat} :
    ∀ {l : List Nat}, (∀ d ∈ l, f d ≤ B) → l.foldr (fun d acc => max (f d) acc) 0 ≤ B := by
  intro l
  induction l with
  | nil => intro _; exact Nat.zero_le _
  | cons x xs ih =>
    intro h
    exact max_le (h x (List.mem_cons_self x xs))
      (ih (fun d hd => h d (List.mem_cons_of_mem x hd)))

theorem length_filter_mono {p q : Nat → Bool} :
    ∀ (l : List Nat), (∀ a, p a = true → q a = true) →
      (l.filter p).length ≤ (l.filter q).length := by
  intro l h
  induction l with
  | nil => simp
  | cons x t ih =>
    rw [List.filter_cons, List.filter_cons]
    by_cases hp : p x
    · rw [if_pos hp, if_pos (h x hp)]
      simpa using ih
    · rw [if_neg hp]
      by_cases hq : q x
      · rw [if_pos hq]
        exact ih.trans (by simp)
      · rw [if_neg hq]
        exact ih

theorem filter_succ_length_lt : ∀ {l : List Nat} {d : Nat}, l.Nodup → d + 1 ∈ l →
    (l.filter (fun x => x ≤ d)).length + 1 ≤ (l.filter (fun x => x ≤ d + 1)).length := by
  intro l
  induction l with
  | nil => intro d _ h; cases h
  | cons x t ih =>
    intro d hnd h
    rw [List.nodup_cons] at hnd
    rw [List.filter_cons, List.filter_cons]
    rcases List.mem_cons.mp h with hx | ht
    · subst hx
      rw [if_neg (by simp), if_pos (by simp)]
      have hmono := length_filter_mono (p := fun x => decide (x ≤ d))
        (q := fun x => decide (x ≤ d + 1)) t (fun a ha => by
          simp only [decide_eq_true_eq] at ha ⊢
          omega)
      simp only [List.length_cons]
      omega
    · have hih := ih hnd.2 ht
      by_cases hxd : x ≤ d
      · rw [if_pos (by simpa using hxd), if_pos (by simp; omega)]
        simp only [List.length_cons]
        omega
      · by_cases hxd1 : x ≤ d + 1
        · have hx1 : x = d + 1 := by omega
          exact absurd (hx1 ▸ ht) hnd.1
        · rw [if_neg (by simpa using hxd), if_neg (by simpa using hxd1)]
          exact hih

theorem runLenEnd_le_filter {l : List Nat} (hnd : l.Nodup) :
    ∀ d, runLenEnd l d ≤ (l.filter (fun x => x ≤ d)).length := by
  intro d
  induction d with
  | zero =>
    by_cases h : 0 ∈ l
    · simp only [runLenEnd, if_pos h]
      exact List.length_pos_of_mem (List.mem_filter.mpr ⟨h, by simp⟩)
    · simp [runLenEnd, h]
  | succ n ih =>
    by_cases h : n + 1 ∈ l
    · simp only [runLenEnd, if_pos h]
      have hf := filter_succ_length_lt hnd h
      omega
    · simp [runLenEnd, h]

theorem maxRun_le_length {l : List Nat} (hnd : l.Nodup) : maxRun l ≤ l.length :=
  foldr_max_f_le (fun d _ => (runLenEnd_le_filter hnd d).trans (List.length_filter_le _ l))

theorem currentSpec_le_maxRun (l : List Nat) (today : Nat) :
    currentSpec l today ≤ maxRun l := by
  unfold currentSpec
  by_cases h : lastDate l = today ∨ lastDate l + 1 = today
  · rw [if_pos h]
    by_cases hl : l = []
    · subst hl
      simp [runLenEnd, lastDate, maxRun]
    · exact le_foldr_max_f (lastDate_mem hl)
  · rw [if_neg h]
    exact Nat.zero_le _

theorem maxRun_pos {l : List Nat} (hl : l ≠ []) : 1 ≤ maxRun l :=
  (runLenEnd_pos (lastDate_mem hl)).trans (le_foldr_max_f (lastDate_mem hl))

/-! ## `make_bar` agrees with the specification formula -/

theorem barSpecFilled_eq_code {c l : Int} (w : Nat) (hc : 0 ≤ c) (hl : 0 < l) :
    (barSpecFilled c l w).toNat =
      (if c > 0 then (if l ≤ c then w else (w * c.toNat) / l.toNat) else 0) := by
  by_cases hc0 : c > 0
  · rw [if_pos hc0]
    by_cases hlc : l ≤ c
    · rw [if_pos hlc]
      have h1 : (1 : ℚ) ≤ (c : ℚ) / (l : ℚ) := by
        rw [one_le_div (by exact_mod_cast hl)]
        exact_mod_cast hlc
      unfold barSpecFilled
      rw [min_eq_left h1, mul_one, Int.floor_natCast, Int.toNat_natCast]
    · rw [if_neg hlc]
      have hlt : (c : ℚ) / (l : ℚ) < 1 := by
        rw [div_lt_one (by exact_mod_cast hl)]
        exact_mod_cast not_le.mp hlc
      have h0 : (0 : ℚ) ≤ (c : ℚ) / (l : ℚ) :=
        div_nonneg (by exact_mod_cast hc) (by positivity)
      unfold barSpecFilled
      rw [min_eq_right (le_of_lt hlt)]
      have hcq : ((c.toNat : ℕ) : ℚ) = (c : ℚ) := by
        exact_mod_cast Int.toNat_of_nonneg hc
      have hlq : ((l.toNat : ℕ) : ℚ) = (l : ℚ) := by
        exact_mod_cast Int.toNat_of_nonneg (le_of_lt hl)
      have hcast : (w : ℚ) * ((c : ℚ) / (l : ℚ)) =
          ((w * c.toNat : ℕ) : ℚ) / ((l.toNat : ℕ) : ℚ) := by
        rw [← mul_div_assoc, Nat.cast_mul, hcq, hlq]
      rw [hcast, Int.floor_toNat, Nat.floor_div_nat, Nat.floor_natCast]
  · have hc0' : c = 0 := by omega
    subst hc0'
    rw [if_neg hc0]
    unfold barSpecFilled
    simp

theorem barSpecFilled_nonneg {c l : Int} (w : Nat) (hc : 0 ≤ c) (hl : 0 < l) :
    0 ≤ barSpecFilled c l w := by
  unfold barSpecFilled
  apply Int.floor_nonneg.mpr
  apply mul_nonneg (by positivity)
  exact le_min zero_le_one (div_nonneg (by exact_mod_cast hc) (by exact_mod_cast le_of_lt hl))

theorem barSpecFilled_le_width {c l : Int} (w : Nat) : barSpecFilled c l w ≤ (w : Int) := by
  unfold barSpecFilled
  have h1 : (w : ℚ) * min 1 ((c : ℚ) / (l : ℚ)) ≤ (w : ℚ) := by
    calc (w : ℚ) * min 1 ((c : ℚ) / (l : ℚ)) ≤ (w : ℚ) * 1 :=
          mul_le_mul_of_nonneg_left (min_le_left _ _) (by positivity)
    _ = (w : ℚ) := mul_one _
  calc (⌊(w : ℚ) * min 1 ((c : ℚ) / (l : ℚ))⌋ : Int) ≤ ⌊(w : ℚ)⌋ := Int.floor_le_floor h1
  _ = (w : Int) := Int.floor_natCast w

/-- For `longest > 0` and `current ≥ 0`, `make_bar` is the bar of
`barSpecFilled` active glyphs, `width - barSpecFilled` inactive glyphs,
and the literal count suffix. -/
theorem make_bar_eq {c l : Int} (w : Nat) (hc : 0 ≤ c) (hl : 0 < l) :
    make_bar c l w = String.mk (List.replicate ((barSpecFilled c l w).toNat) '🔥')
      ++ String.mk (List.replicate (w - (barSpecFilled c l w).toNat) '·')
      ++ "  (" ++ toString c ++ "/" ++ toString l ++ " days)" := by
  unfold make_bar
  rw [if_neg (not_le.mpr hl), barSpecFilled_eq_code w hc hl]

/-! ## Pipeline lemmas: `normalize_dates`, `add_today_if_missing`, the run -/

theorem mem_normalize {a : String} {l : List String} : a ∈ normalize_dates l ↔ a ∈ l := by
  unfold normalize_dates
  rw [List.mem_insertionSort, List.mem_dedup]

theorem normalize_sorted (l : List String) : (normalize_dates l).Sorted pyStrLe :=
  List.sorted_insertionSort _ _

theorem normalize_nodup (l : List String) : (normalize_dates l).Nodup :=
  (List.perm_insertionSort _ _).nodup_iff.mpr (List.nodup_dedup l)

theorem normalize_idem (l : List String) :
    normalize_dates (normalize_dates l) = normalize_dates l := by
  calc normalize_dates (normalize_dates l)
      = (normalize_dates l).dedup.insertionSort pyStrLe := rfl
    _ = (normalize_dates l).insertionSort pyStrLe := by rw [(normalize_nodup l).dedup]
    _ = normalize_dates l := List.Sorted.insertionSort_eq (normalize_sorted l)

/-- What a successful `add_today_if_missing` produces: the normalized
merged date list, the calculator output on it, the maxed longest streak,
and an untouched `created_at`. -/
theorem add_today_shape {d0 : StreakData} {tA tC : Ymd} {d1 : StreakData} {c : Nat} {l : Int}
    (h : add_today_if_missing d0 tA tC = Except.ok (d1, c, l)) :
    ∃ lng : Nat, calculate_streak d1.dates tC.ord = Except.ok (c, lng) ∧
      d1.dates = normalize_dates
        (if fmt tA ∈ d0.dates then d0.dates else d0.dates ++ [fmt tA]) ∧
      d1.longest_streak = max d0.longest_streak (lng : Int) ∧
      l = d1.longest_streak ∧ d1.created_at = d0.created_at := by
  simp only [add_today_if_missing] at h
  rcases hcalc : calculate_streak (normalize_dates
      (if fmt tA ∈ d0.dates then d0.dates else d0.dates ++ [fmt tA])) tC.ord with e | p
  · rw [hcalc] at h
    simp at h
  · rcases p with ⟨cur, lng⟩
    rw [hcalc] at h
    simp only [Except.ok.injEq, Prod.mk.injEq] at h
    obtain ⟨hd1, hc, hl⟩ := h
    subst hd1
    exact ⟨lng, by rw [hcalc, hc], rfl, rfl, by rw [← hl], rfl⟩

/-- Feeding the record produced by `add_today_if_missing` through it again
(with the same clock date) is a no-op with identical outputs. -/
theorem add_today_stable {d0 : StreakData} {t : Ymd} {d1 : StreakData} {c : Nat} {l : Int}
    (h : add_today_if_missing d0 t t = Except.ok (d1, c, l)) :
    add_today_if_missing d1 t t = Except.ok (d1, c, l) := by
  obtain ⟨lng, hcalc, hdates, hls, hl, _⟩ := add_today_shape h
  have hmem : fmt t ∈ d1.dates := by
    rw [hdates, mem_normalize]
    by_cases hin : fmt t ∈ d0.dates
    · rw [if_pos hin]; exact hin
    · rw [if_neg hin]; exact List.mem_append_right _ (List.mem_singleton_self _)
  have hnorm : normalize_dates d1.dates = d1.dates := by
    rw [hdates, normalize_idem]
  have hmax : max d1.longest_streak (lng : Int) = d1.longest_streak := by
    rw [hls, max_assoc, max_self]
  simp only [add_today_if_missing]
  rw [if_pos hmem, hnorm, hcalc]
  dsimp only
  rw [hmax, hl]

/-- Rewriting the report with the very content just written (or found
unchanged) reports no change and leaves the file as it is. -/
theorem write_stable (f : Option String) (md : String) :
    write_if_changed (write_if_changed f md).1 md = ((write_if_changed f md).1, false) := by
  unfold write_if_changed read_file
  by_cases h : pyStrip (f.getD "") ≠ pyStrip md
  · rw [if_pos h]
    simp
  · rw [if_neg h]
    simp only
    rw [if_neg h]

/-- Decomposition of a successful run. -/
theorem runMain_shape {fs : FState} {t : Ymd} {out : RunOut}
    (h : runMain fs t = Except.ok out) :
    ∃ d1 c l md, add_today_if_missing (load_record fs.data t) t t = Except.ok (d1, c, l) ∧
      render_streak_md d1 c l t t = Except.ok md ∧
      out = (⟨some d1, (write_if_changed fs.report md).1⟩,
        (write_if_changed fs.report md).2, c, l, d1.dates.length) := by
  simp only [runMain] at h
  rcases hadd : add_today_if_missing (load_record fs.data t) t t with e | q
  · rw [hadd] at h
    simp at h
  · rcases q with ⟨data1, current, longest⟩
    rw [hadd] at h
    dsimp only at h
    rcases hrend : render_streak_md data1 current longest t t with e | md
    · rw [hrend] at h
      simp at h
    · rw [hrend] at h
      dsimp only at h
      exact ⟨data1, current, longest, md, rfl, hrend, (Except.ok.inj h).symm⟩

/-! ## Helper: `calculate_streak` on a fresh single-date record -/

theorem calculate_streak_singleton {t : String} {o : Nat} (ht : to_date t = some o) :
    calculate_streak [t] o = Except.ok (1, 1) := by
  simp only [calculate_streak, parse_all, ht, List.isEmpty_cons, Bool.false_eq_true, if_false,
    List.insertionSort, List.orderedInsert, chainLoop, List.getLastD, if_pos rfl, if_true]

/-! ## The claims -/

/-- C2: running the full update twice in succession with the same fixed
"today" is idempotent — the second run leaves both files exactly as the
first run's output and its `write_if_changed` reports `false`, with the
same headline numbers. -/
theorem c2_idempotent (fs : FState) (t : Ymd) (out : RunOut)
    (h : runMain fs t = Except.ok out) :
    runMain out.1 t = Except.ok (out.1, false, out.2.2) := by
  obtain ⟨d1, c, l, md, hadd, hrend, hout⟩ := runMain_shape h
  subst hout
  simp only [runMain, load_record]
  rw [add_today_stable hadd]
  dsimp only
  rw [hrend]
  dsimp only
  rw [write_stable]

/-- C2 witness: a concrete first run from an empty state, and the second
run reproducing its output unchanged. -/
theorem c2_idempotent_witness :
    runMain ⟨none, none⟩ ⟨2024, 6, 1⟩ =
      Except.ok (okOr (runMain ⟨none, none⟩ ⟨2024, 6, 1⟩) dfltOut) ∧
    runMain (okOr (runMain ⟨none, none⟩ ⟨2024, 6, 1⟩) dfltOut).1 ⟨2024, 6, 1⟩ =
      Except.ok ((okOr (runMain ⟨none, none⟩ ⟨2024, 6, 1⟩) dfltOut).1, false,
        (okOr (runMain ⟨none, none⟩ ⟨2024, 6, 1⟩) dfltOut).2.2) :=
  ⟨by decide, c2_idempotent ⟨none, none⟩ ⟨2024, 6, 1⟩ _ (by decide)⟩

/-- C4: on a non-empty set of valid dates, the current streak equals the
consecutive-run length ending at the most recent date when that date is
`today` or `today - 1`, and 0 otherwise. -/
theorem c4_current_streak (dates : List String) (ds : List Nat) (today : Nat)
    (hp : parse_all dates = Except.ok ds) (_hne : dates ≠ []) (hnd : ds.Nodup)
    (ht : 1 < today) :
    ∃ cur lng : Nat, calculate_streak dates today = Except.ok (cur, lng) ∧
      cur = (if lastDate ds = today ∨ lastDate ds + 1 = today
             then runLenEnd ds (lastDate ds) else 0) :=
  ⟨currentSpec ds today, maxRun ds, calculate_streak_spec dates ds today hp hnd ht, rfl⟩

/-- C4 witness: three consecutive days ending on today give streak 3. -/
theorem c4_current_streak_witness :
    parse_all ["2024-01-01", "2024-01-02", "2024-01-03"] =
      Except.ok [rataDie 2024 1 1, rataDie 2024 1 2, rataDie 2024 1 3] ∧
    ["2024-01-01", "2024-01-02", "2024-01-03"] ≠ [] ∧
    [rataDie 2024 1 1, rataDie 2024 1 2, rataDie 2024 1 3].Nodup ∧
    1 < rataDie 2024 1 3 ∧
    (∃ cur lng : Nat,
      calculate_streak ["2024-01-01", "2024-01-02", "2024-01-03"] (rataDie 2024 1 3) =
        Except.ok (cur, lng) ∧
      cur = (if lastDate [rataDie 2024 1 1, rataDie 2024 1 2, rataDie 2024 1 3] =
                 rataDie 2024 1 3 ∨
               lastDate [rataDie 2024 1 1, rataDie 2024 1 2, rataDie 2024 1 3] + 1 =
                 rataDie 2024 1 3
             then runLenEnd [rataDie 2024 1 1, rataDie 2024 1 2, rataDie 2024 1 3]
               (lastDate [rataDie 2024 1 1, rataDie 2024 1 2, rataDie 2024 1 3])
             else 0)) :=
  ⟨by decide, by decide, by decide, by decide,
    c4_current_streak _ _ _ (by decide) (by decide) (by decide) (by decide)⟩

/-- C5: the longest observed streak is the maximum length of a run of
strictly consecutive days in the (deduplicated) date set, and the empty
set yields `(0, 0)`. -/
theorem c5_longest_streak (dates : List String) (ds : List Nat) (today : Nat)
    (hp : parse_all dates = Except.ok ds) (hnd : ds.Nodup) (ht : 1 < today) :
    (∃ cur : Nat, calculate_streak dates today = Except.ok (cur, maxRun ds)) ∧
      calculate_streak [] today = Except.ok (0, 0) :=
  ⟨⟨currentSpec ds today, calculate_streak_spec dates ds today hp hnd ht⟩, rfl⟩

/-- C5 witness: a 3-run with a gap has longest streak 3 even when the
current streak is dead. -/
theorem c5_longest_streak_witness :
    parse_all ["2024-01-01", "2024-01-02", "2024-01-03"] =
      Except.ok [rataDie 2024 1 1, rataDie 2024 1 2, rataDie 2024 1 3] ∧
    [rataDie 2024 1 1, rataDie 2024 1 2, rataDie 2024 1 3].Nodup ∧
    1 < rataDie 2024 1 5 ∧
    ((∃ cur : Nat,
        calculate_streak ["2024-01-01", "2024-01-02", "2024-01-03"] (rataDie 2024 1 5) =
          Except.ok (cur,
            maxRun [rataDie 2024 1 1, rataDie 2024 1 2, rataDie 2024 1 3])) ∧
      calculate_streak [] (rataDie 2024 1 5) = Except.ok (0, 0)) :=
  ⟨by decide, by decide, by decide,
    c5_longest_streak _ _ _ (by decide) (by decide) (by decide)⟩

/-- C6: each completed run sets the stored longest streak to the maximum
of its prior value and the freshly observed longest run, so it never
decreases. -/
theorem c6_longest_monotone (fs : FState) (t : Ymd) (out : RunOut)
    (h : runMain fs t = Except.ok out) :
    ∃ (r : StreakData) (cur lng : Nat), out.1.data = some r ∧
      calculate_streak r.dates t.ord = Except.ok (cur, lng) ∧
      r.longest_streak = max (load_record fs.data t).longest_streak (lng : Int) ∧
      (load_record fs.data t).longest_streak ≤ r.longest_streak := by
  obtain ⟨d1, c, l, md, hadd, hrend, hout⟩ := runMain_shape h
  obtain ⟨lng, hcalc, hdates, hls, hl, hcreated⟩ := add_today_shape hadd
  subst hout
  exact ⟨d1, c, lng, rfl, hcalc, hls, hls ▸ le_max_left _ _⟩

/-- C6 witness: a run on a stored record whose `longest_streak` (5)
exceeds anything observable keeps it. -/
theorem c6_longest_monotone_witness :
    runMain ⟨some ⟨["2024-05-30"], 5, "2024-05-01"⟩, none⟩ ⟨2024, 6, 1⟩ =
      Except.ok (okOr (runMain ⟨some ⟨["2024-05-30"], 5, "2024-05-01"⟩, none⟩ ⟨2024, 6, 1⟩)
        dfltOut) ∧
    (∃ (r : StreakData) (cur lng : Nat),
      (okOr (runMain ⟨some ⟨["2024-05-30"], 5, "2024-05-01"⟩, none⟩ ⟨2024, 6, 1⟩)
        dfltOut).1.data = some r ∧
      calculate_streak r.dates (Ymd.ord ⟨2024, 6, 1⟩) = Except.ok (cur, lng) ∧
      r.longest_streak =
        max (load_record (some ⟨["2024-05-30"], 5, "2024-05-01"⟩) ⟨2024, 6, 1⟩).longest_streak
          (lng : Int) ∧
      (load_record (some ⟨["2024-05-30"], 5, "2024-05-01"⟩) ⟨2024, 6, 1⟩).longest_streak ≤
        r.longest_streak) :=
  ⟨by decide, c6_longest_monotone ⟨some ⟨["2024-05-30"], 5, "2024-05-01"⟩, none⟩ ⟨2024, 6, 1⟩
    (okOr (runMain ⟨some ⟨["2024-05-30"], 5, "2024-05-01"⟩, none⟩ ⟨2024, 6, 1⟩) dfltOut)
    (by decide)⟩

/-- C7: every completed run stores the record (regardless of whether the
report changed), and the persisted date list is sorted ascending,
duplicate-free, and contains today's date. -/
theorem c7_save_invariants (fs : FState) (t : Ymd) (out : RunOut)
    (h : runMain fs t = Except.ok out) :
    ∃ r : StreakData, out.1.data = some r ∧ r.dates.Sorted pyStrLe ∧ r.dates.Nodup ∧
      fmt t ∈ r.dates := by
  obtain ⟨d1, c, l, md, hadd, hrend, hout⟩ := runMain_shape h
  obtain ⟨lng, hcalc, hdates, hls, hl, hcreated⟩ := add_today_shape hadd
  subst hout
  refine ⟨d1, rfl, ?_, ?_, ?_⟩
  · rw [hdates]; exact normalize_sorted _
  · rw [hdates]; exact normalize_nodup _
  · rw [hdates, mem_normalize]
    by_cases hin : fmt t ∈ (load_record fs.data t).dates
    · rw [if_pos hin]; exact hin
    · rw [if_neg hin]; exact List.mem_append_right _ (List.mem_singleton_self _)

/-- C7 witness: the state written by a concrete run satisfies the
invariants. -/
theorem c7_save_invariants_witness :
    runMain ⟨some ⟨["2024-06-02", "2024-05-30"], 0, "2024-05-30"⟩, some "old"⟩ ⟨2024, 6, 1⟩ =
      Except.ok (okOr (runMain ⟨some ⟨["2024-06-02", "2024-05-30"], 0, "2024-05-30"⟩,
        some "old"⟩ ⟨2024, 6, 1⟩) dfltOut) ∧
    (∃ r : StreakData,
      (okOr (runMain ⟨some ⟨["2024-06-02", "2024-05-30"], 0, "2024-05-30"⟩, some "old"⟩
        ⟨2024, 6, 1⟩) dfltOut).1.data = some r ∧
      r.dates.Sorted pyStrLe ∧ r.dates.Nodup ∧ fmt ⟨2024, 6, 1⟩ ∈ r.dates) :=
  ⟨by decide, c7_save_invariants
    ⟨some ⟨["2024-06-02", "2024-05-30"], 0, "2024-05-30"⟩, some "old"⟩ ⟨2024, 6, 1⟩
    (okOr (runMain ⟨some ⟨["2024-06-02", "2024-05-30"], 0, "2024-05-30"⟩, some "old"⟩
      ⟨2024, 6, 1⟩) dfltOut)
    (by decide)⟩

/-- C8: `write_if_changed` reports `true` and overwrites the report
exactly when the stripped old content (empty for an absent file) differs
from the stripped new content; otherwise the file is untouched. -/
theorem c8_write_if_changed (f : Option String) (new_content : String) :
    (write_if_changed f new_content).2 =
      decide (pyStrip (read_file f) ≠ pyStrip new_content) ∧
    (write_if_changed f new_content).1 =
      (if pyStrip (read_file f) ≠ pyStrip new_content then some new_content else f) := by
  unfold write_if_changed
  by_cases h : pyStrip (read_file f) ≠ pyStrip new_content
  · simp [h]
  · simp [h]

/-- C9: with `longest ≤ 0` the bar is the fixed message; with
`longest > 0` it is exactly `floor(width * min(1, current/longest))`
active glyphs (0 of them when `current = 0`), the complementary inactive
glyphs, and the literal `(current/longest days)` suffix.  (Python's float
arithmetic is modelled as exact rational arithmetic.) -/
theorem c9_make_bar (c l : Int) (hc : 0 ≤ c) :
    (l ≤ 0 → make_bar c l 40 = "No streak yet. Start today. 🔥") ∧
    (0 < l → make_bar c l 40 =
      String.mk (List.replicate ((barSpecFilled c l 40).toNat) '🔥')
        ++ String.mk (List.replicate (40 - (barSpecFilled c l 40).toNat) '·')
        ++ "  (" ++ toString c ++ "/" ++ toString l ++ " days)") ∧
    (c = 0 → barSpecFilled c l 40 = 0) := by
  refine ⟨fun hl => ?_, fun hl => make_bar_eq 40 hc hl, fun hc0 => ?_⟩
  · unfold make_bar
    rw [if_pos hl]
  · subst hc0
    unfold barSpecFilled
    rw [Int.cast_zero, zero_div, min_eq_right zero_le_one, mul_zero]
    exact Int.floor_zero

/-- C9 witness: `make_bar 7 10 40`. -/
theorem c9_make_bar_witness :
    (0 : Int) ≤ 7 ∧
    (((10 : Int) ≤ 0 → make_bar 7 10 40 = "No streak yet. Start today. 🔥") ∧
     ((0 : Int) < 10 → make_bar 7 10 40 =
       String.mk (List.replicate ((barSpecFilled 7 10 40).toNat) '🔥')
         ++ String.mk (List.replicate (40 - (barSpecFilled 7 10 40).toNat) '·')
         ++ "  (" ++ toString (7 : Int) ++ "/" ++ toString (10 : Int) ++ " days)") ∧
     ((7 : Int) = 0 → barSpecFilled 7 10 40 = 0)) :=
  ⟨by decide, c9_make_bar 7 10 (by decide)⟩

/-- C10: on a non-empty valid date set the calculator's outputs satisfy
`cur ≤ lng` and `1 ≤ lng ≤ #dates`; consequently the bar ratio is at most
1 and the fill count at most the width. -/
theorem c10_bounds (dates : List String) (ds : List Nat) (today : Nat) (cur lng : Nat)
    (hp : parse_all dates = Except.ok ds) (hne : dates ≠ []) (hnd : ds.Nodup)
    (ht : 1 < today)
    (hres : calculate_streak dates today = Except.ok (cur, lng)) :
    cur ≤ lng ∧ 1 ≤ lng ∧ lng ≤ ds.length ∧
      (cur : ℚ) / (lng : ℚ) ≤ 1 ∧
      barSpecFilled (cur : Int) (lng : Int) 40 ≤ 40 ∧
      (barSpecFilled (cur : Int) (lng : Int) 40).toNat ≤ 40 := by
  have hspec := calculate_streak_spec dates ds today hp hnd ht
  rw [hres] at hspec
  have hpair := Except.ok.inj hspec
  have hcur : cur = currentSpec ds today := congrArg Prod.fst hpair
  have hlng : lng = maxRun ds := congrArg Prod.snd hpair
  have hdsne : ds ≠ [] := by
    intro hnil
    have hlen := parse_all_length hp
    rw [hnil] at hlen
    cases dates with
    | nil => exact hne rfl
    | cons a b => simp at hlen
  subst hcur hlng
  refine ⟨currentSpec_le_maxRun ds today, maxRun_pos hdsne, maxRun_le_length hnd, ?_, ?_, ?_⟩
  · apply div_le_one_of_le₀
    · exact_mod_cast currentSpec_le_maxRun ds today
    · positivity
  · exact_mod_cast barSpecFilled_le_width 40
  · have hb := barSpecFilled_le_width (c := (currentSpec ds today : Int))
      (l := (maxRun ds : Int)) 40
    omega

/-- C10 witness: the 3-day example feeds `(3, 3)` into the bar. -/
theorem c10_bounds_witness :
    parse_all ["2024-01-01", "2024-01-02", "2024-01-03"] =
      Except.ok [rataDie 2024 1 1, rataDie 2024 1 2, rataDie 2024 1 3] ∧
    ["2024-01-01", "2024-01-02", "2024-01-03"] ≠ [] ∧
    [rataDie 2024 1 1, rataDie 2024 1 2, rataDie 2024 1 3].Nodup ∧
    1 < rataDie 2024 1 3 ∧
    calculate_streak ["2024-01-01", "2024-01-02", "2024-01-03"] (rataDie 2024 1 3) =
      Except.ok (3, 3) ∧
    (3 ≤ 3 ∧ 1 ≤ 3 ∧
      3 ≤ [rataDie 2024 1 1, rataDie 2024 1 2, rataDie 2024 1 3].length ∧
      (3 : ℚ) / (3 : ℚ) ≤ 1 ∧
      barSpecFilled (3 : Int) (3 : Int) 40 ≤ 40 ∧
      (barSpecFilled (3 : Int) (3 : Int) 40).toNat ≤ 40) :=
  ⟨by decide, by decide, by decide, by decide, by decide,
    c10_bounds ["2024-01-01", "2024-01-02", "2024-01-03"]
      [rataDie 2024 1 1, rataDie 2024 1 2, rataDie 2024 1 3] (rataDie 2024 1 3) 3 3
      (by decide) (by decide) (by decide) (by decide) (by decide)⟩

/-- C1 counterexample: `"[0]"` is a file content that parses as JSON but
is not a valid record.  `load_data` returns it unchanged — not a fresh
empty record — and the run then dies in `add_today_if_missing` with an
uncaught `AttributeError` (`list` has no `.get`), so a parse-level failure
does surface to the caller. -/
theorem c1_counterexample :
    load_data (FileContent.json (PyVal.plist [PyVal.pint 0])) "2024-06-01" ≠
      freshRecord "2024-06-01" ∧
    dyn_add_today_if_missing
        (load_data (FileContent.json (PyVal.plist [PyVal.pint 0])) "2024-06-01")
        "2024-06-01" (rataDie 2024 6 1) =
      Except.error "AttributeError: object has no attribute get" := by
  constructor
  · intro h
    simp [load_data, freshRecord] at h
  · rfl

/-- C1 amended: if the record file is absent, or its content is not valid
JSON (`json.load` raises), `load_data` returns the fresh empty record and
the run proceeds without error; content that parses as JSON is returned
as-is with no shape validation.  `tAdd`/`tCalc` are the two clock reads of
the merge step, assumed consistent (`to_date tAdd = some tCalc`). -/
theorem c1_amended (t : String) (o : Nat) (ht : to_date t = some o) :
    load_data FileContent.absent t = freshRecord t ∧
    load_data FileContent.malformed t = freshRecord t ∧
    exOk (dyn_add_today_if_missing (load_data FileContent.absent t) t o) = true := by
  refine ⟨rfl, rfl, ?_⟩
  have hcalc : calculate_streak [t] o = Except.ok (1, 1) := calculate_streak_singleton ht
  simp [load_data, freshRecord, dyn_add_today_if_missing, pyGet, pyContains, pyAppend,
    dynNormalize, dedupScalar, scalarEq, dynCalc, dynToStrs, hcalc, pyMax, dictSet, exOk,
    List.insertionSort, List.orderedInsert, List.filterMap]

/-- C1 witness for the amended statement, on a concrete valid date. -/
theorem c1_amended_witness :
    to_date "2024-06-01" = some (rataDie 2024 6 1) ∧
    (load_data FileContent.absent "2024-06-01" = freshRecord "2024-06-01" ∧
     load_data FileContent.malformed "2024-06-01" = freshRecord "2024-06-01" ∧
     exOk (dyn_add_today_if_missing (load_data FileContent.absent "2024-06-01")
       "2024-06-01" (rataDie 2024 6 1)) = true) :=
  ⟨by decide, c1_amended "2024-06-01" (rataDie 2024 6 1) (by decide)⟩

/-- C3 counterexample: the script does not hold "today" fixed — it reads
the clock again at each use.  Two runs from the identical (empty) prior
state whose first clock read is the same day (2024-01-01) produce
different outputs when later reads fall after midnight; in the second run
the streak is computed against a clock two midnights later and the freshly
logged day yields a reported current streak of 0 instead of 1. -/
theorem c3_counterexample :
    (Clock.tLoad ⟨⟨2024, 1, 1⟩, ⟨2024, 1, 1⟩, ⟨2024, 1, 1⟩, ⟨2024, 1, 1⟩, ⟨2024, 1, 1⟩⟩ =
      Clock.tLoad ⟨⟨2024, 1, 1⟩, ⟨2024, 1, 1⟩, ⟨2024, 1, 3⟩, ⟨2024, 1, 2⟩, ⟨2024, 1, 2⟩⟩) ∧
    runMainClock ⟨none, none⟩
        ⟨⟨2024, 1, 1⟩, ⟨2024, 1, 1⟩, ⟨2024, 1, 1⟩, ⟨2024, 1, 1⟩, ⟨2024, 1, 1⟩⟩ ≠
      runMainClock ⟨none, none⟩
        ⟨⟨2024, 1, 1⟩, ⟨2024, 1, 1⟩, ⟨2024, 1, 3⟩, ⟨2024, 1, 2⟩, ⟨2024, 1, 2⟩⟩ ∧
    (okOr (runMainClock ⟨none, none⟩
        ⟨⟨2024, 1, 1⟩, ⟨2024, 1, 1⟩, ⟨2024, 1, 3⟩, ⟨2024, 1, 2⟩, ⟨2024, 1, 2⟩⟩) dfltOut).2.2.1
      = 0 ∧
    (okOr (runMain ⟨none, none⟩ ⟨2024, 1, 1⟩) dfltOut).2.2.1 = 1 := by
  refine ⟨rfl, by decide, by decide, by decide⟩

/-- C3 amended: each component reads the clock on its own, but on a run
during which every read returns the same date (no midnight crossing) the
clocked run coincides with `runMain`, whose outputs are a function of the
prior state and that single date — so two runs from identical state and
identical "today" produce identical outputs. -/
theorem c3_amended (fs : FState) (d : Ymd) :
    runMainClock fs ⟨d, d, d, d, d⟩ = runMain fs d := rfl

end StreakUpdate
